import Mathlib

/-!
Verification development for the windowed haplotype aggregation and
reconciliation engine of `src/main.py` (variant-calling pipeline).

The Python source is shallowly embedded:
* a `Variant` record mirrors the mutable variant objects produced by the
  alignment-to-variant collaborator (`vcf.aln_to_vars`);
* Python dicts keyed by `(pos, ref, alt)` become association lists;
* the per-step loop body of `_call_vars_region` (main.py:252-301) becomes
  `regionStepBody`, with the external collaborators (read gathering,
  inference, alignment diffing) supplied as oracle data in `StepInput`;
* `reconcile_current_window` (main.py:75-118) becomes the function of the
  same name;
* the region loop of `call` (main.py:159-175) and of `eval_labeled_bam`
  (main.py:441-463) become `callLoop` and `evalLoop`;
* the output-assembly tail of `call` (main.py:180-196) becomes `assemble`.
  The duplicate-excluding emission lives in the `vcf` module, which is not
  part of the sources; `emitVars` is modelled from the spec (see its
  doc comment).
-/

/-- A called variant, mirroring the fields of the Python variant objects
that this engine reads and mutates: identity `(pos, ref, alt)`, plus
`chrom`, quality, zygosity flag `het`, haplotype index, genotype pair,
phase set, duplicate flag, and the step index / model-haplotype stamps
set by `_call_vars_region`. -/
structure Variant where
  chrom : String := ""
  pos : Int := 0
  ref : String := ""
  alt : String := ""
  qual : Int := 0
  het : Bool := false
  haplotype : Nat := 0
  genotype : Nat × Nat := (0, 0)
  phase_set : Int := 0
  duplicate : Bool := false
  hap_model : Nat := 0
  step : Nat := 0
deriving DecidableEq, Repr

/-- Variant identity, the Python dict key `(v.pos, v.ref, v.alt)`. -/
abbrev VarKey := Int × String × String

def varKey (v : Variant) : VarKey := (v.pos, v.ref, v.alt)

/-- One step's candidate dict (`stepvars0` / `stepvars1`): Python dict
from identity to variant, insertion-ordered. -/
abbrev StepDict := List (VarKey × Variant)

/-- A region's running per-haplotype map (`allvars0` / `allvars1`):
Python `defaultdict(list)` from identity to occurrence list. -/
abbrev VarMap := List (VarKey × List Variant)

/-- Python dict assignment `d[k] = v`: overwrite in place if the key is
present, otherwise append a new entry. -/
def dictInsert : StepDict → VarKey → Variant → StepDict
  | [], k, v => [(k, v)]
  | (k2, v2) :: rest, k, v =>
      if k2 = k then (k, v) :: rest else (k2, v2) :: dictInsert rest k v

/-- `k in d` for a step dict. -/
def hasKeyD : StepDict → VarKey → Bool
  | [], _ => false
  | (k2, _) :: rest, k => if k2 = k then true else hasKeyD rest k

/-- `k in m` for a running map. -/
def hasKey : VarMap → VarKey → Bool
  | [], _ => false
  | (k2, _) :: rest, k => if k2 = k then true else hasKey rest k

/-- `m[k]` for a running map, with the `defaultdict` convention that an
absent key denotes the empty occurrence list. -/
def lookupList : VarMap → VarKey → List Variant
  | [], _ => []
  | (k2, vs) :: rest, k => if k2 = k then vs else lookupList rest k

/-- `allvars[key].append(v)` on a `defaultdict(list)`: append to the
existing occurrence list, or create a fresh singleton entry. -/
def mapAppend : VarMap → VarKey → Variant → VarMap
  | [], k, v => [(k, [v])]
  | (k2, vs) :: rest, k, v =>
      if k2 = k then (k2, vs ++ [v]) :: rest
      else (k2, vs) :: mapAppend rest k v

/-- main.py:246 `window_step = 50`. -/
def windowStep : Int := 50

/-- main.py:247 `var_retain_window_size = 150`. -/
def varRetainWindowSize : Int := 150

/-- The field stamping `v.hap_model = hm; v.step = sc` done in the
retention loops (main.py:277-278, 283-284). -/
def stamp (v : Variant) (hm sc : Nat) : Variant :=
  { v with hap_model := hm, step := sc }

/-- One retention loop of `_call_vars_region` (main.py:275-279 for bucket
0, main.py:281-285 for bucket 1): keep a candidate only when
`v.pos < window_start + var_retain_window_size`, stamping its model
haplotype and step index and inserting it under its identity key. -/
def retainStep (ws : Int) (hm sc : Nat) : List Variant → StepDict → StepDict
  | [], d => d
  | v :: rest, d =>
      if v.pos < ws + varRetainWindowSize then
        retainStep ws hm sc rest (dictInsert d (varKey v) (stamp v hm sc))
      else
        retainStep ws hm sc rest d

/-- `sum(len(m[k]) for k in d if k in m)` (main.py:288-291): total
accumulated occurrence count, over this step's keys, found in a running
map. -/
def sharedOccCount : StepDict → VarMap → Nat
  | [], _ => 0
  | (k, _) :: rest, m =>
      (if hasKey m k then (lookupList m k).length else 0) + sharedOccCount rest m

/-- The merge loops `[allvars[key].append(v) for key, v in stepvars.items()]`
(main.py:296-297). -/
def mergeStep : VarMap → StepDict → VarMap
  | m, [] => m
  | m, (k, v) :: rest => mergeStep (mapAppend m k v) rest

/-- `LowReadCountException` (main.py:46-50). -/
inductive CallErr where
  | lowReadCount
deriving DecidableEq, Repr

/-- Oracle data for one step: the spanning-read count found by the read
source, and the two candidate lists the external inference +
alignment-diff collaborators would produce for this window
(`vcf.aln_to_vars` output for each predicted haplotype sequence). -/
structure StepInput where
  readCount : Nat
  varsHap0 : List Variant := []
  varsHap1 : List Variant := []
deriving Repr

/-- The fallible part of `callvars` (main.py:205-207): raise
`LowReadCountException` when fewer than `min_reads` reads span the
window; otherwise the external model produces the two candidate lists. -/
def callvarsResult (minReads : Nat) (inp : StepInput) :
    Except CallErr (List Variant × List Variant) :=
  if inp.readCount < minReads then .error .lowReadCount
  else .ok (inp.varsHap0, inp.varsHap1)

/-- State threaded through the `while` loop of `_call_vars_region`
(main.py:248-301): the two running maps, the sliding `window_start` and
the `step_count`. -/
structure RegionState where
  allvars0 : VarMap := []
  allvars1 : VarMap := []
  windowStart : Int := 0
  stepCount : Nat := 0
deriving Repr

/-- One iteration of the `while` loop of `_call_vars_region`
(main.py:252-301): call `callvars`, recovering from
`LowReadCountException` with empty candidate lists (main.py:266-271);
retain and stamp each bucket's candidates (main.py:274-285); compute the
same/opposite accumulated-occurrence counts and swap the two step dicts
when `opposite > same` (main.py:287-293); merge into the running maps
(main.py:296-297); advance the window and the step counter
(main.py:300-301). -/
def regionStepBody (minReads : Nat) (st : RegionState) (inp : StepInput) :
    RegionState :=
  let vars0 :=
    match callvarsResult minReads inp with
    | .error .lowReadCount => []
    | .ok p => p.1
  let vars1 :=
    match callvarsResult minReads inp with
    | .error .lowReadCount => []
    | .ok p => p.2
  let stepvars0 := retainStep st.windowStart 0 st.stepCount vars0 []
  let stepvars1 := retainStep st.windowStart 1 st.stepCount vars1 []
  let same := sharedOccCount stepvars0 st.allvars0 + sharedOccCount stepvars1 st.allvars1
  let opposite := sharedOccCount stepvars0 st.allvars1 + sharedOccCount stepvars1 st.allvars0
  let s0 := if same < opposite then stepvars1 else stepvars0
  let s1 := if same < opposite then stepvars0 else stepvars1
  { allvars0 := mergeStep st.allvars0 s0
    allvars1 := mergeStep st.allvars1 s1
    windowStart := st.windowStart + windowStep
    stepCount := st.stepCount + 1 }

/-- The `while window_start <= (end - window_step)` loop of
`_call_vars_region` (main.py:252), consuming one oracle `StepInput` per
iteration. -/
def regionLoop (minReads : Nat) (ed : Int) : RegionState → List StepInput → RegionState
  | st, [] => st
  | st, inp :: rest =>
      if st.windowStart ≤ ed - windowStep then
        regionLoop minReads ed (regionStepBody minReads st inp) rest
      else st

/-- `_call_vars_region` (main.py:230-309): start two strides upstream of
the focal region (main.py:250) with empty running maps and run the step
loop. -/
def callVarsRegion (minReads : Nat) (start ed : Int) (inputs : List StepInput) :
    RegionState :=
  regionLoop minReads ed
    { allvars0 := [], allvars1 := [], windowStart := start - 2 * windowStep, stepCount := 0 }
    inputs

/-- A per-window variant dict (`var_windows` element, produced by
`vcf.vcf_vars`): Python dict from identity to a single representative
variant. -/
abbrev Window := List (VarKey × Variant)

def winLookup : Window → VarKey → Option Variant
  | [], _ => none
  | (k2, v) :: rest, k => if k2 = k then some v else winLookup rest k

def winHasKey (w : Window) (k : VarKey) : Bool :=
  (winLookup w k).isSome

def winKeys (w : Window) : List VarKey := w.map Prod.fst

/-- `overlap_vars = set(prev_win) & set(current_win)` (main.py:82), taken
in the current window's key order (Python set order is unspecified; none
of the reconciliation outcomes proved below depend on this order). -/
def overlapKeys (prev cur : Window) : List VarKey :=
  (winKeys cur).filter (fun k => winHasKey prev k)

/-- The counting loop of `reconcile_current_window` (main.py:85-91): over
the overlapping identities, count pairs that are heterozygous in both
windows with equal / unequal haplotype assignment. -/
def hapCounts (prev cur : Window) : Nat × Nat :=
  (overlapKeys prev cur).foldl
    (fun acc k =>
      match winLookup prev k, winLookup cur k with
      | some pv, some cv =>
          if pv.het && cv.het then
            if pv.haplotype = cv.haplotype then (acc.1 + 1, acc.2)
            else (acc.1, acc.2 + 1)
          else acc
      | _, _ => acc)
    (0, 0)

/-- The per-variant mutation of the swap branch (main.py:93-98): reverse
the genotype pair of every variant, and flip the haplotype field 0 ↔ 1
for the heterozygous ones. -/
def flipVariant (v : Variant) : Variant :=
  let v1 := { v with genotype := (v.genotype.2, v.genotype.1) }
  if v1.het = true ∧ v1.haplotype = 0 then { v1 with haplotype := 1 }
  else if v1.het = true ∧ v1.haplotype = 1 then { v1 with haplotype := 0 }
  else v1

/-- The whole-window swap pass of `reconcile_current_window`
(main.py:84-98): when the opposite-haplotype pair count strictly exceeds
the same-haplotype count, flip every current-window variant. -/
def swapPass (prev cur : Window) : Window :=
  let counts := hapCounts prev cur
  if counts.1 < counts.2 then cur.map (fun kv => (kv.1, flipVariant kv.2)) else cur

/-- `current_win[k].duplicate = True` for the entry with identity `k`. -/
def winSetDup (w : Window) (k : VarKey) : Window :=
  w.map (fun kv => if kv.1 = k then (kv.1, { kv.2 with duplicate := true }) else kv)

/-- `for v in current_win: current_win[v].phase_set = ps` (main.py:110-111). -/
def winSetAllPS (w : Window) (ps : Int) : Window :=
  w.map (fun kv => (kv.1, { kv.2 with phase_set := ps }))

/-- One iteration of the per-variant duplicate-marking loop of
`reconcile_current_window` (main.py:100-117): three branch conditions on
the zygosity and genotype of the two copies of identity `k`. -/
def dupStep (prev cur : Window) (k : VarKey) : Window :=
  match winLookup prev k, winLookup cur k with
  | some pv, some cv =>
      let c1 := if pv.het = false ∧ cv.het = false then winSetDup cur k else cur
      let c2 :=
        if pv.het = true ∧ cv.het = true ∧ pv.genotype = cv.genotype then
          winSetAllPS (winSetDup c1 k) pv.phase_set
        else c1
      let c3 :=
        if pv.het = true ∧ cv.het = true ∧ pv.genotype ≠ cv.genotype then
          winSetDup c2 k
        else c2
      c3
  | _, _ => cur

/-- The per-variant duplicate-marking loop (main.py:100-117), folded over
the overlapping identities. -/
def dupPass (prev cur : Window) : Window :=
  (overlapKeys prev cur).foldl (fun c k => dupStep prev c k) cur

/-- `reconcile_current_window` (main.py:75-118): the swap pass followed by
the per-variant duplicate pass, returning the (modified) current
window. -/
def reconcile_current_window (prev cur : Window) : Window :=
  dupPass prev (swapPass prev cur)

/-- Joint state (previous window, current window) view of
`reconcile_current_window`: the source mutates current-window variants in
place and never writes through `prev_win`. -/
def reconcilePair (s : Window × Window) : Window × Window :=
  (s.1, reconcile_current_window s.1 s.2)

/-- The fields of a variant that `reconcile_current_window` never writes
(it only assigns `haplotype`, `genotype`, `phase_set` and `duplicate`). -/
def idFields (v : Variant) : String × Int × String × String × Int × Bool × Nat × Nat :=
  (v.chrom, v.pos, v.ref, v.alt, v.qual, v.het, v.hap_model, v.step)

/-- Entrywise correspondence between an input window and a reconciled
window: same entries in the same order, same key, all
non-reconciliation fields untouched. -/
def frameOK (a b : Window) : Prop :=
  List.Forall₂ (fun x y => y.1 = x.1 ∧ idFields y.2 = idFields x.2) a b

/-- Any non-`LowReadCountException` error escaping a region of the `call`
loop (there is no handler there; `LowReadCountException` itself is
consumed per step inside `_call_vars_region`). -/
inductive RegionErr where
  | other (msg : String)
deriving DecidableEq, Repr

/-- The region loop of `call` (main.py:159-175): process regions in
order, reconciling each new window against the previous one; region
results are oracle `Except` values and no error is caught, so any error
aborts the loop. The accumulator holds the windows most recent first. -/
def callLoop : List (Except RegionErr Window) → List Window → Except RegionErr (List Window)
  | [], acc => .ok acc.reverse
  | r :: rest, acc =>
      match r with
      | .error e => .error e
      | .ok w =>
          match acc with
          | [] => callLoop rest [w]
          | prev :: tl => callLoop rest (reconcile_current_window prev w :: prev :: tl)

/-- The region loop of `eval_labeled_bam` (main.py:441-463): each
region's work is wrapped in `try ... except Exception: log; continue`,
so a failing region contributes nothing and the loop moves on. -/
def evalLoop : List (Except RegionErr Window) → List Window
  | [] => []
  | .error _ :: rest => evalLoop rest
  | .ok w :: rest => w :: evalLoop rest

/-- A target interval from the BED file (`Chromosome`, `Start`, `End`). -/
structure BedInterval where
  chrom : String
  left : Int
  right : Int
deriving DecidableEq, Repr

/-- Output ordering used by `pr.PyRanges(df_vars).sort()` (main.py:189):
non-decreasing in `(chromosome, position)`. -/
def varLe (a b : Variant) : Prop :=
  a.chrom < b.chrom ∨ (a.chrom = b.chrom ∧ a.pos ≤ b.pos)

instance : DecidableRel varLe := fun a b =>
  inferInstanceAs (Decidable (_ ∨ _))

instance : IsTotal Variant varLe where
  total a b := by
    rcases lt_trichotomy a.chrom b.chrom with h | h | h
    · exact Or.inl (Or.inl h)
    · rcases le_total a.pos b.pos with hp | hp
      · exact Or.inl (Or.inr ⟨h, hp⟩)
      · exact Or.inr (Or.inr ⟨h.symm, hp⟩)
    · exact Or.inr (Or.inl h)

instance : IsTrans Variant varLe where
  trans a b c hab hbc := by
    rcases hab with h1 | ⟨h1, h1p⟩
    · rcases hbc with h2 | ⟨h2, _⟩
      · exact Or.inl (lt_trans h1 h2)
      · exact Or.inl (h2 ▸ h1)
    · rcases hbc with h2 | ⟨h2, h2p⟩
      · exact Or.inl (h1 ▸ h2)
      · exact Or.inr ⟨h1.trans h2, le_trans h1p h2p⟩

/-- A variant row survives `pr_vars.intersect(pr_bed)` (main.py:192) for
target `t` when its unit interval `[pos-1, pos)` overlaps `[left, right)`
on the same chromosome, i.e. `left < pos` and `pos - 1 < right`. -/
def overlapsTarget (v : Variant) (t : BedInterval) : Bool :=
  (v.chrom == t.chrom) && decide (t.left < v.pos) && decide (v.pos - 1 < t.right)

/-- Modelled from the spec: the emission step of `vcf.vars_to_vcf`
(module `vcf` is not among the sources). Per the spec, the emitted set
prefers the first-seen, non-duplicate occurrence per identity;
duplicate-flagged variants are excluded from the emitted set. -/
def emitVars : List Variant → List VarKey → List Variant
  | [], _ => []
  | v :: rest, seen =>
      if v.duplicate then emitVars rest seen
      else if varKey v ∈ seen then emitVars rest seen
      else v :: emitVars rest (varKey v :: seen)

/-- The output-assembly tail of `call` (main.py:180-196): flatten every
window's variant dict into one list, sort by (chromosome, position),
intersect with the original target intervals, and emit
(duplicate-excluding emission modelled from the spec, see `emitVars`). -/
def assemble (windows : List Window) (targets : List BedInterval) : List Variant :=
  let vcfvarList := windows.foldl (fun acc w => acc ++ w.map Prod.snd) []
  let sorted := List.insertionSort varLe vcfvarList
  let intersected := sorted.filter (fun v => targets.any (fun t => overlapsTarget v t))
  emitVars intersected []

/-- Inputs for the counterexample runs: two variant identities. -/
def cxVarA : Variant := { pos := 10, ref := "A", alt := "C" }

def cxVarB : Variant := { pos := 20, ref := "G", alt := "T" }

/-- Step 1 oracle: identity A from inference bucket 0, identity B from
bucket 1. -/
def cxInp1 : StepInput := { readCount := 9, varsHap0 := [cxVarA], varsHap1 := [cxVarB] }

/-- Step 2 oracle: the buckets arrive with the opposite labelling, which
triggers the corrective swap. -/
def cxInp2 : StepInput := { readCount := 9, varsHap0 := [cxVarB], varsHap1 := [cxVarA] }

/-- A mid-region running state used by concrete witnesses: identity A
accumulated once in map 0, identity B once in map 1. -/
def wSt : RegionState :=
  { allvars0 := [((10, "A", "C"), [stamp cxVarA 0 0])]
    allvars1 := [((20, "G", "T"), [stamp cxVarB 1 0])]
    windowStart := 50
    stepCount := 1 }

/-- Previous-window copy of a heterozygous variant (phase set 7). -/
def hetVarPrev : Variant :=
  { pos := 5, ref := "A", alt := "G", het := true, genotype := (0, 1), phase_set := 7 }

/-- Current-window copy of the same variant with the same genotype order
(phase set 9 before reconciliation). -/
def hetVarCur : Variant :=
  { pos := 5, ref := "A", alt := "G", het := true, genotype := (0, 1), phase_set := 9 }

def prevWin : Window := [((5, "A", "G"), hetVarPrev)]

def curWin : Window := [((5, "A", "G"), hetVarCur)]

/-- A non-duplicate called variant inside the target used by the
assembler witness. -/
def cxOutVar : Variant := { chrom := "chr1", pos := 5, ref := "A", alt := "G" }

def cxTarget : BedInterval := { chrom := "chr1", left := 0, right := 10 }

theorem hasKeyD_dictInsert (d : StepDict) (k k2 : VarKey) (v : Variant) :
    hasKeyD (dictInsert d k v) k2 = (hasKeyD d k2 || decide (k = k2)) := by
  induction d with
  | nil =>
      by_cases h : k = k2 <;> simp [dictInsert, hasKeyD, h]
  | cons e rest ih =>
      obtain ⟨k3, v3⟩ := e
      by_cases h3 : k3 = k
      · subst h3
        by_cases h2 : k3 = k2 <;> simp [dictInsert, hasKeyD, h2]
      · rw [dictInsert, if_neg h3]
        by_cases h2 : k3 = k2
        · subst h2
          simp [hasKeyD]
        · simp [hasKeyD, h2, ih]

theorem hasKeyD_retainStep (ws : Int) (hm sc : Nat) (vars : List Variant)
    (d : StepDict) (k : VarKey) :
    hasKeyD (retainStep ws hm sc vars d) k = true ↔
      hasKeyD d k = true ∨
        ∃ v ∈ vars, varKey v = k ∧ v.pos < ws + varRetainWindowSize := by
  induction vars generalizing d with
  | nil => simp [retainStep]
  | cons v rest ih =>
      by_cases hv : v.pos < ws + varRetainWindowSize
      · rw [retainStep, if_pos hv, ih, hasKeyD_dictInsert]
        constructor
        · rintro (h | h)
          · rcases Bool.or_eq_true_iff.mp h with h | h
            · exact Or.inl h
            · exact Or.inr ⟨v, List.mem_cons_self v rest, of_decide_eq_true h, hv⟩
          · obtain ⟨w, hw, hwk, hwp⟩ := h
            exact Or.inr ⟨w, List.mem_cons_of_mem v hw, hwk, hwp⟩
        · rintro (h | ⟨w, hw, hwk, hwp⟩)
          · exact Or.inl (Bool.or_eq_true_iff.mpr (Or.inl h))
          · rcases List.mem_cons.mp hw with hw | hw
            · subst hw
              exact Or.inl (Bool.or_eq_true_iff.mpr (Or.inr (decide_eq_true hwk)))
            · exact Or.inr ⟨w, hw, hwk, hwp⟩
      · rw [retainStep, if_neg hv, ih]
        constructor
        · rintro (h | ⟨w, hw, hwk, hwp⟩)
          · exact Or.inl h
          · exact Or.inr ⟨w, List.mem_cons_of_mem v hw, hwk, hwp⟩
        · rintro (h | ⟨w, hw, hwk, hwp⟩)
          · exact Or.inl h
          · rcases List.mem_cons.mp hw with hw | hw
            · subst hw; exact absurd hwp hv
            · exact Or.inr ⟨w, hw, hwk, hwp⟩

/-- Claim C1: at every step, a candidate variant is entered into the
step's per-haplotype candidate dict exactly when its position is
strictly less than `window_start + var_retain_window_size`, with
`var_retain_window_size = 150`; a variant at exactly the boundary is
excluded and one position earlier is included. -/
theorem retention_boundary (ws : Int) (hm sc : Nat) (vars : List Variant) (k : VarKey) :
    varRetainWindowSize = 150 ∧
      (hasKeyD (retainStep ws hm sc vars []) k = true ↔
        ∃ v ∈ vars, varKey v = k ∧ v.pos < ws + varRetainWindowSize) := by
  refine ⟨rfl, ?_⟩
  rw [hasKeyD_retainStep]
  simp [hasKeyD]

/-- Claim C1 witness: at the concrete boundary: position `ws + 149` is retained and
position `ws + 150` is not (with `ws = 0`). -/
theorem retention_boundary_witness :
    hasKeyD (retainStep 0 0 0 [{ pos := 149, ref := "A", alt := "C" }] []) (149, "A", "C") = true ∧
      hasKeyD (retainStep 0 0 0 [{ pos := 150, ref := "A", alt := "C" }] []) (150, "A", "C") = false := by
  constructor
  · exact (retention_boundary 0 0 0 [{ pos := 149, ref := "A", alt := "C" }] (149, "A", "C")).2.mpr
      ⟨{ pos := 149, ref := "A", alt := "C" }, by simp, rfl, by decide⟩
  · by_contra h
    have h2 := (retention_boundary 0 0 0 [{ pos := 150, ref := "A", alt := "C" }] (150, "A", "C")).2.mp
      (by revert h; decide)
    obtain ⟨v, hv, -, hvp⟩ := h2
    rcases List.mem_singleton.mp hv with rfl
    exact absurd hvp (by decide)

/-- Claim C2: a step whose spanning-read count is below `min_reads`
raises `LowReadCountException` from `callvars`; the step loop of
`_call_vars_region` recovers locally, the step contributes empty
candidate dicts (both running maps are unchanged), and the loop simply
advances to the next window (the error never escapes the step body). -/
theorem low_read_soft_fail (minReads : Nat) (st : RegionState) (inp : StepInput)
    (h : inp.readCount < minReads) :
    callvarsResult minReads inp = Except.error CallErr.lowReadCount ∧
      regionStepBody minReads st inp =
        { st with windowStart := st.windowStart + windowStep,
                  stepCount := st.stepCount + 1 } := by
  have hc : callvarsResult minReads inp = Except.error CallErr.lowReadCount := by
    simp [callvarsResult, h]
  refine ⟨hc, ?_⟩
  simp [regionStepBody, hc, retainStep, sharedOccCount, mergeStep]

/-- Claim C2 witness: at a concrete input: zero reads against `min_reads = 5`. -/
theorem low_read_soft_fail_witness :
    callvarsResult 5 { readCount := 0 } = Except.error CallErr.lowReadCount ∧
      regionStepBody 5 {} { readCount := 0 } =
        { ({} : RegionState) with
            windowStart := ({} : RegionState).windowStart + windowStep,
            stepCount := ({} : RegionState).stepCount + 1 } :=
  low_read_soft_fail 5 {} { readCount := 0 } (by decide)

theorem sharedOccCount_eq_sum (d : StepDict) (m : VarMap) :
    sharedOccCount d m =
      (((d.map Prod.fst).filter (fun k => hasKey m k)).map
        (fun k => (lookupList m k).length)).sum := by
  induction d with
  | nil => rfl
  | cons kv rest ih =>
      obtain ⟨k, v⟩ := kv
      cases hk : hasKey m k <;>
        simp [sharedOccCount, hk, ih, List.filter_cons]

theorem sharedOccCount_eq_zero (d : StepDict) (m : VarMap)
    (h : ∀ kv ∈ d, hasKey m kv.1 = false) :
    sharedOccCount d m = 0 := by
  induction d with
  | nil => rfl
  | cons kv rest ih =>
      have hk := h kv (List.mem_cons_self kv rest)
      rw [sharedOccCount]
      · rw [hk]
        simp only [Bool.false_eq_true, if_false, Nat.zero_add]
        exact ih (fun e he => h e (List.mem_cons_of_mem kv he))

/-- Claim C3: at every step with enough reads, the step reconciler
computes `same` as the accumulated-occurrence count of bucket-0 keys in
running map 0 plus bucket-1 keys in running map 1, `opposite` as the two
cross sums (occurrence counts, not key presence), swaps the two buckets
before merging exactly when `opposite > same`, and keeps the current
assignment on a tie. -/
theorem step_swap_decision (minReads : Nat) (st : RegionState) (inp : StepInput)
    (h : minReads ≤ inp.readCount)
    (sv0 sv1 : StepDict) (same opposite : Nat)
    (hsv0 : sv0 = retainStep st.windowStart 0 st.stepCount inp.varsHap0 [])
    (hsv1 : sv1 = retainStep st.windowStart 1 st.stepCount inp.varsHap1 [])
    (hsame : same =
      (((sv0.map Prod.fst).filter (fun k => hasKey st.allvars0 k)).map
        (fun k => (lookupList st.allvars0 k).length)).sum +
      (((sv1.map Prod.fst).filter (fun k => hasKey st.allvars1 k)).map
        (fun k => (lookupList st.allvars1 k).length)).sum)
    (hopposite : opposite =
      (((sv0.map Prod.fst).filter (fun k => hasKey st.allvars1 k)).map
        (fun k => (lookupList st.allvars1 k).length)).sum +
      (((sv1.map Prod.fst).filter (fun k => hasKey st.allvars0 k)).map
        (fun k => (lookupList st.allvars0 k).length)).sum) :
    (regionStepBody minReads st inp).allvars0 =
        mergeStep st.allvars0 (if same < opposite then sv1 else sv0) ∧
      (regionStepBody minReads st inp).allvars1 =
        mergeStep st.allvars1 (if same < opposite then sv0 else sv1) := by
  subst hsv0 hsv1 hsame hopposite
  have hok : ¬ inp.readCount < minReads := Nat.not_lt.mpr h
  constructor <;>
    simp only [regionStepBody, callvarsResult, if_neg hok,
      sharedOccCount_eq_sum]

/-- Claim C3 witness: at a concrete input: with one prior occurrence of each identity
accumulated in the opposite map, `same = 0 < 2 = opposite` and the step
buckets are swapped before merging. -/
theorem step_swap_decision_witness :
    (regionStepBody 5 wSt cxInp2).allvars0 =
      mergeStep wSt.allvars0 (retainStep 50 1 1 [cxVarA] []) := by
  have h := (step_swap_decision 5 wSt cxInp2 (by decide)
      (retainStep 50 0 1 [cxVarB] []) (retainStep 50 1 1 [cxVarA] [])
      0 2 (by decide) (by decide) (by decide) (by decide)).1
  rw [h, if_pos (by decide : (0 : Nat) < 2)]

/-- Claim C7: once the running maps and the current step's candidate
buckets are consistent (no bucket-0 key appears in running map 1 and no
bucket-1 key appears in running map 0), the recomputed `opposite` count
is zero, so `opposite > same` can never hold and no corrective swap is
triggered: the step merges with the current assignment. -/
theorem no_second_swap (minReads : Nat) (st : RegionState) (inp : StepInput)
    (h : minReads ≤ inp.readCount)
    (h0 : ∀ kv ∈ retainStep st.windowStart 0 st.stepCount inp.varsHap0 [],
      hasKey st.allvars1 kv.1 = false)
    (h1 : ∀ kv ∈ retainStep st.windowStart 1 st.stepCount inp.varsHap1 [],
      hasKey st.allvars0 kv.1 = false) :
    sharedOccCount (retainStep st.windowStart 0 st.stepCount inp.varsHap0 []) st.allvars1 +
        sharedOccCount (retainStep st.windowStart 1 st.stepCount inp.varsHap1 []) st.allvars0 = 0 ∧
      (regionStepBody minReads st inp).allvars0 =
        mergeStep st.allvars0 (retainStep st.windowStart 0 st.stepCount inp.varsHap0 []) ∧
      (regionStepBody minReads st inp).allvars1 =
        mergeStep st.allvars1 (retainStep st.windowStart 1 st.stepCount inp.varsHap1 []) := by
  have hok : ¬ inp.readCount < minReads := Nat.not_lt.mpr h
  have hz : sharedOccCount (retainStep st.windowStart 0 st.stepCount inp.varsHap0 []) st.allvars1 +
      sharedOccCount (retainStep st.windowStart 1 st.stepCount inp.varsHap1 []) st.allvars0 = 0 := by
    rw [sharedOccCount_eq_zero _ _ h0, sharedOccCount_eq_zero _ _ h1]
  refine ⟨hz, ?_, ?_⟩ <;>
    simp [regionStepBody, callvarsResult, if_neg hok, hz]

/-- Claim C7 witness: at a concrete input: a step consistent with the corrected
assignment recomputes `opposite = 0`. -/
theorem no_second_swap_witness :
    sharedOccCount (retainStep wSt.windowStart 0 wSt.stepCount cxInp1.varsHap0 []) wSt.allvars1 +
      sharedOccCount (retainStep wSt.windowStart 1 wSt.stepCount cxInp1.varsHap1 []) wSt.allvars0 = 0 :=
  (no_second_swap 5 wSt cxInp1 (by decide) (by decide) (by decide)).1

theorem mem_dictInsert (d : StepDict) (k : VarKey) (v : Variant)
    (kv : VarKey × Variant) (h : kv ∈ dictInsert d k v) :
    kv ∈ d ∨ kv = (k, v) := by
  induction d with
  | nil =>
      simp [dictInsert] at h
      exact Or.inr h
  | cons e rest ih =>
      obtain ⟨k3, v3⟩ := e
      by_cases h3 : k3 = k
      · rw [dictInsert, if_pos h3] at h
        rcases List.mem_cons.mp h with h | h
        · exact Or.inr h
        · exact Or.inl (List.mem_cons_of_mem _ h)
      · rw [dictInsert, if_neg h3] at h
        rcases List.mem_cons.mp h with h | h
        · exact Or.inl (h ▸ List.mem_cons_self _ _)
        · rcases ih h with h | h
          · exact Or.inl (List.mem_cons_of_mem _ h)
          · exact Or.inr h

theorem retainStep_stamped (ws : Int) (hm sc : Nat) (vars : List Variant)
    (d : StepDict) (hd : ∀ kv ∈ d, kv.2.hap_model = hm ∧ kv.2.step = sc) :
    ∀ kv ∈ retainStep ws hm sc vars d, kv.2.hap_model = hm ∧ kv.2.step = sc := by
  induction vars generalizing d with
  | nil => exact hd
  | cons v rest ih =>
      intro kv hkv
      by_cases hv : v.pos < ws + varRetainWindowSize
      · rw [retainStep, if_pos hv] at hkv
        refine ih _ ?_ kv hkv
        intro e he
        rcases mem_dictInsert _ _ _ _ he with he | he
        · exact hd e he
        · subst he
          exact ⟨rfl, rfl⟩
      · rw [retainStep, if_neg hv] at hkv
        exact ih _ hd kv hkv

theorem lookupList_mapAppend (m : VarMap) (k : VarKey) (v : Variant) (k2 : VarKey) :
    lookupList (mapAppend m k v) k2 =
      if k2 = k then lookupList m k ++ [v] else lookupList m k2 := by
  induction m with
  | nil =>
      by_cases h : k2 = k
      · simp [mapAppend, lookupList, h]
      · simp [mapAppend, lookupList, h, Ne.symm h]
  | cons e rest ih =>
      obtain ⟨k3, vs⟩ := e
      by_cases h3 : k3 = k
      · subst h3
        by_cases h2 : k2 = k3
        · subst h2
          simp [mapAppend, lookupList]
        · simp [mapAppend, lookupList, h2, Ne.symm h2]
      · rw [mapAppend, if_neg h3]
        by_cases h32 : k3 = k2
        · subst h32
          simp [lookupList, h3]
        · simp [lookupList, h32, h3, ih]

theorem lookupList_mergeStep (m : VarMap) (d : StepDict) (k : VarKey) :
    lookupList (mergeStep m d) k =
      lookupList m k ++ (d.filter (fun kv => decide (kv.1 = k))).map Prod.snd := by
  induction d generalizing m with
  | nil => simp [mergeStep]
  | cons e rest ih =>
      obtain ⟨k3, v⟩ := e
      rw [mergeStep, ih, lookupList_mapAppend]
      by_cases h3 : k3 = k
      · subst h3
        simp [List.filter_cons]
      · rw [if_neg (fun h => h3 h.symm)]
        simp [List.filter_cons, h3]

/-- Claim C4 counterexample: after the corrective swap at the second
step, running map 0 for identity `(10, "A", "C")` holds two occurrences
whose `hap_model` stamps are `0` and `1` — the second occurrence sits in
map 0 yet carries haplotype-bucket field 1, because the stamping
(main.py:277, 283) happens before the swap (main.py:293). -/
theorem stamp_before_swap_cx :
    ((lookupList (callVarsRegion 5 100 200 [cxInp1, cxInp2]).allvars0 (10, "A", "C")).map
        Variant.hap_model) = [0, 1] := by
  decide

/-- Claim C4 (amended): each retained candidate's haplotype-bucket field
and step index are stamped before the swap decision, recording the
pre-swap inference bucket (0 for the first model output, 1 for the
second); merging appends occurrences (new key creates a new entry, an
existing key appends without replacing); consequently every occurrence a
step adds to running map 0 carries bucket field 1 when that step
swapped and 0 otherwise (and symmetrically for map 1). -/
theorem stamp_before_swap (minReads : Nat) (st : RegionState) (inp : StepInput)
    (h : minReads ≤ inp.readCount)
    (sv0 sv1 : StepDict) (same opposite : Nat)
    (hsv0 : sv0 = retainStep st.windowStart 0 st.stepCount inp.varsHap0 [])
    (hsv1 : sv1 = retainStep st.windowStart 1 st.stepCount inp.varsHap1 [])
    (hsame : same = sharedOccCount sv0 st.allvars0 + sharedOccCount sv1 st.allvars1)
    (hopposite : opposite = sharedOccCount sv0 st.allvars1 + sharedOccCount sv1 st.allvars0) :
    (∀ kv ∈ sv0, kv.2.hap_model = 0 ∧ kv.2.step = st.stepCount) ∧
      (∀ kv ∈ sv1, kv.2.hap_model = 1 ∧ kv.2.step = st.stepCount) ∧
      (∀ (m : VarMap) (d : StepDict) (k : VarKey),
        lookupList (mergeStep m d) k =
          lookupList m k ++ (d.filter (fun kv => decide (kv.1 = k))).map Prod.snd) ∧
      (∀ (k : VarKey) (v : Variant),
        v ∈ lookupList ((regionStepBody minReads st inp).allvars0) k →
          v ∈ lookupList st.allvars0 k ∨ v.hap_model = (if same < opposite then 1 else 0)) ∧
      (∀ (k : VarKey) (v : Variant),
        v ∈ lookupList ((regionStepBody minReads st inp).allvars1) k →
          v ∈ lookupList st.allvars1 k ∨ v.hap_model = (if same < opposite then 0 else 1)) := by
  subst hsv0 hsv1 hsame hopposite
  have hok : ¬ inp.readCount < minReads := Nat.not_lt.mpr h
  have hst0 : ∀ kv ∈ retainStep st.windowStart 0 st.stepCount inp.varsHap0 [],
      kv.2.hap_model = 0 ∧ kv.2.step = st.stepCount :=
    retainStep_stamped _ _ _ _ _ (by intro kv hkv; cases hkv)
  have hst1 : ∀ kv ∈ retainStep st.windowStart 1 st.stepCount inp.varsHap1 [],
      kv.2.hap_model = 1 ∧ kv.2.step = st.stepCount :=
    retainStep_stamped _ _ _ _ _ (by intro kv hkv; cases hkv)
  have hbody0 : (regionStepBody minReads st inp).allvars0 =
      mergeStep st.allvars0
        (if sharedOccCount (retainStep st.windowStart 0 st.stepCount inp.varsHap0 []) st.allvars0 +
              sharedOccCount (retainStep st.windowStart 1 st.stepCount inp.varsHap1 []) st.allvars1 <
            sharedOccCount (retainStep st.windowStart 0 st.stepCount inp.varsHap0 []) st.allvars1 +
              sharedOccCount (retainStep st.windowStart 1 st.stepCount inp.varsHap1 []) st.allvars0 then
          retainStep st.windowStart 1 st.stepCount inp.varsHap1 []
        else retainStep st.windowStart 0 st.stepCount inp.varsHap0 []) := by
    simp only [regionStepBody, callvarsResult, if_neg hok]
  have hbody1 : (regionStepBody minReads st inp).allvars1 =
      mergeStep st.allvars1
        (if sharedOccCount (retainStep st.windowStart 0 st.stepCount inp.varsHap0 []) st.allvars0 +
              sharedOccCount (retainStep st.windowStart 1 st.stepCount inp.varsHap1 []) st.allvars1 <
            sharedOccCount (retainStep st.windowStart 0 st.stepCount inp.varsHap0 []) st.allvars1 +
              sharedOccCount (retainStep st.windowStart 1 st.stepCount inp.varsHap1 []) st.allvars0 then
          retainStep st.windowStart 0 st.stepCount inp.varsHap0 []
        else retainStep st.windowStart 1 st.stepCount inp.varsHap1 []) := by
    simp only [regionStepBody, callvarsResult, if_neg hok]
  refine ⟨hst0, hst1, fun m d k => lookupList_mergeStep m d k, ?_, ?_⟩
  · intro k v hv
    rw [hbody0, lookupList_mergeStep] at hv
    rcases List.mem_append.mp hv with hv | hv
    · exact Or.inl hv
    · obtain ⟨kv, hkv, hkv2⟩ := List.mem_map.mp hv
      have hkvd := (List.mem_filter.mp hkv).1
      right
      subst hkv2
      split
      next hcond =>
        rw [if_pos hcond] at hkvd
        exact (hst1 kv hkvd).1
      next hcond =>
        rw [if_neg hcond] at hkvd
        exact (hst0 kv hkvd).1
  · intro k v hv
    rw [hbody1, lookupList_mergeStep] at hv
    rcases List.mem_append.mp hv with hv | hv
    · exact Or.inl hv
    · obtain ⟨kv, hkv, hkv2⟩ := List.mem_map.mp hv
      have hkvd := (List.mem_filter.mp hkv).1
      right
      subst hkv2
      split
      next hcond =>
        rw [if_pos hcond] at hkvd
        exact (hst0 kv hkvd).1
      next hcond =>
        rw [if_neg hcond] at hkvd
        exact (hst1 kv hkvd).1

/-- Claim C4 (amended) witness: at a concrete input: the occurrence the swapped second
step adds to map 0 carries bucket field `1`. -/
theorem stamp_before_swap_witness :
    stamp cxVarA 1 1 ∈ lookupList wSt.allvars0 (10, "A", "C") ∨
      (stamp cxVarA 1 1).hap_model = (if 0 < 2 then 1 else 0) :=
  (stamp_before_swap 5 wSt cxInp2 (by decide)
      (retainStep 50 0 1 [cxVarB] []) (retainStep 50 1 1 [cxVarA] []) 0 2
      (by decide) (by decide) (by decide) (by decide)).2.2.2.1
    (10, "A", "C") (stamp cxVarA 1 1) (by decide)

theorem winLookup_winSetDup (w : Window) (k k2 : VarKey) :
    winLookup (winSetDup w k) k2 =
      if k2 = k then (winLookup w k2).map (fun v => { v with duplicate := true })
      else winLookup w k2 := by
  induction w with
  | nil => by_cases h : k2 = k <;> simp [winSetDup, winLookup, h]
  | cons e rest ih =>
      obtain ⟨k3, v⟩ := e
      have hcons : winSetDup ((k3, v) :: rest) k =
          (if k3 = k then (k3, { v with duplicate := true }) else (k3, v)) ::
            winSetDup rest k := rfl
      rw [hcons]
      by_cases h3 : k3 = k
      · rw [if_pos h3]
        by_cases h32 : k3 = k2
        · subst h32
          simp [winLookup, h3]
        · simp [winLookup, h32, ih]
      · rw [if_neg h3]
        by_cases h32 : k3 = k2
        · subst h32
          simp [winLookup, h3]
        · simp [winLookup, h32, ih]

theorem winLookup_winSetAllPS (w : Window) (ps : Int) (k2 : VarKey) :
    winLookup (winSetAllPS w ps) k2 =
      (winLookup w k2).map (fun v => { v with phase_set := ps }) := by
  induction w with
  | nil => simp [winSetAllPS, winLookup]
  | cons e rest ih =>
      obtain ⟨k3, v⟩ := e
      have hcons : winSetAllPS ((k3, v) :: rest) ps =
          (k3, { v with phase_set := ps }) :: winSetAllPS rest ps := rfl
      rw [hcons]
      by_cases h : k3 = k2
      · subst h
        simp [winLookup]
      · simp [winLookup, h, ih]

/-- Claim C5: for an identity present in both windows, the per-variant
pass of `reconcile_current_window` resolves it into exactly one of three
outcomes — both homozygous: mark the current copy duplicate and nothing
else; both heterozygous with identical genotype order: mark duplicate
and propagate the previous copy's phase-set id to every current-window
variant; both heterozygous with differing genotype order: mark duplicate
only (no phase-set propagation, no genotype reversal). The last two
conjuncts characterize the effect of the marking and propagation
helpers on every entry. -/
theorem region_dup_branches (prev cur : Window) (k : VarKey) (pv cv : Variant)
    (hp : winLookup prev k = some pv) (hc : winLookup cur k = some cv) :
    (pv.het = false → cv.het = false → dupStep prev cur k = winSetDup cur k) ∧
      (pv.het = true → cv.het = true → pv.genotype = cv.genotype →
        dupStep prev cur k = winSetAllPS (winSetDup cur k) pv.phase_set) ∧
      (pv.het = true → cv.het = true → pv.genotype ≠ cv.genotype →
        dupStep prev cur k = winSetDup cur k) ∧
      (∀ (w : Window) (k2 : VarKey),
        winLookup (winSetDup w k) k2 =
          if k2 = k then (winLookup w k2).map (fun v => { v with duplicate := true })
          else winLookup w k2) ∧
      (∀ (w : Window) (ps : Int) (k2 : VarKey),
        winLookup (winSetAllPS w ps) k2 =
          (winLookup w k2).map (fun v => { v with phase_set := ps })) := by
  refine ⟨?_, ?_, ?_, fun w k2 => winLookup_winSetDup w k k2,
    fun w ps k2 => winLookup_winSetAllPS w ps k2⟩
  · intro h1 h2
    simp [dupStep, hp, hc, h1, h2]
  · intro h1 h2 h3
    simp [dupStep, hp, hc, h1, h2, h3]
  · intro h1 h2 h3
    simp [dupStep, hp, hc, h1, h2, h3]

/-- Claim C5 witness: at a concrete input: both copies heterozygous with the same
genotype order, so the current copy is marked duplicate and the whole
current window inherits phase set 7 from the previous window. -/
theorem region_dup_branches_witness :
    dupStep prevWin curWin (5, "A", "G") =
      winSetAllPS (winSetDup curWin (5, "A", "G")) hetVarPrev.phase_set :=
  (region_dup_branches prevWin curWin (5, "A", "G") hetVarPrev hetVarCur
      (by decide) (by decide)).2.1 rfl rfl rfl

theorem hapCounts_foldl (prev cur : Window) (ks : List VarKey) (a b : Nat) :
    ks.foldl
      (fun acc k =>
        match winLookup prev k, winLookup cur k with
        | some pv, some cv =>
            if pv.het && cv.het then
              if pv.haplotype = cv.haplotype then (acc.1 + 1, acc.2)
              else (acc.1, acc.2 + 1)
            else acc
        | _, _ => acc)
      (a, b) =
      (a + ks.countP (fun k =>
          match winLookup prev k, winLookup cur k with
          | some pv, some cv => pv.het && cv.het && decide (pv.haplotype = cv.haplotype)
          | _, _ => false),
        b + ks.countP (fun k =>
          match winLookup prev k, winLookup cur k with
          | some pv, some cv => pv.het && cv.het && decide (¬ pv.haplotype = cv.haplotype)
          | _, _ => false)) := by
  induction ks generalizing a b with
  | nil => simp
  | cons k rest ih =>
      rw [List.foldl_cons, List.countP_cons, List.countP_cons]
      rcases hpv : winLookup prev k with _ | pv
      · simp only [hpv, ih]
        simp
      · rcases hcv : winLookup cur k with _ | cv
        · simp only [hpv, hcv, ih]
          simp
        · by_cases hhet : (pv.het && cv.het) = true
          · by_cases hh : pv.haplotype = cv.haplotype
            · simp only [hpv, hcv, hhet, if_true, if_pos hh, ih]
              rw [Prod.mk.injEq]
              constructor <;> simp [hhet, hh] <;> omega
            · simp only [hpv, hcv, hhet, if_true, if_neg hh, ih]
              rw [Prod.mk.injEq]
              constructor <;> simp [hhet, hh] <;> omega
          · simp only [hpv, hcv, ih]
            rw [Prod.mk.injEq]
            have hf : ¬ (pv.het = true ∧ cv.het = true) := by
              intro hcontra
              exact hhet (by simp [hcontra.1, hcontra.2])
            constructor <;> simp [hhet, hf] <;> omega

/-- Claim C6: before the per-variant duplicate pass,
`reconcile_current_window` counts the overlapping identity pairs that
are heterozygous in both windows with same versus opposite haplotype
assignment; exactly when the opposite count strictly exceeds the same
count it reverses the genotype order of every current-window variant and
flips the haplotype field 0 ↔ 1 for every heterozygous one, and
otherwise this pass changes nothing. -/
theorem region_swap_pass (prev cur : Window) :
    hapCounts prev cur =
        ((overlapKeys prev cur).countP (fun k =>
            match winLookup prev k, winLookup cur k with
            | some pv, some cv => pv.het && cv.het && decide (pv.haplotype = cv.haplotype)
            | _, _ => false),
          (overlapKeys prev cur).countP (fun k =>
            match winLookup prev k, winLookup cur k with
            | some pv, some cv => pv.het && cv.het && decide (¬ pv.haplotype = cv.haplotype)
            | _, _ => false)) ∧
      swapPass prev cur =
        (if (hapCounts prev cur).1 < (hapCounts prev cur).2 then
          cur.map (fun kv => (kv.1, flipVariant kv.2))
        else cur) ∧
      ∀ v : Variant,
        (flipVariant v).genotype = (v.genotype.2, v.genotype.1) ∧
          (flipVariant v).haplotype =
            (if v.het = true ∧ v.haplotype = 0 then 1
             else if v.het = true ∧ v.haplotype = 1 then 0 else v.haplotype) ∧
          (flipVariant v).het = v.het ∧
          (flipVariant v).duplicate = v.duplicate ∧
          (flipVariant v).phase_set = v.phase_set ∧
          (flipVariant v).pos = v.pos ∧ (flipVariant v).ref = v.ref ∧
          (flipVariant v).alt = v.alt := by
  refine ⟨?_, rfl, ?_⟩
  · have h := hapCounts_foldl prev cur (overlapKeys prev cur) 0 0
    simpa [hapCounts] using h
  · intro v
    unfold flipVariant
    by_cases h0 : v.het = true ∧ v.haplotype = 0
    · simp [h0]
    · by_cases h1 : v.het = true ∧ v.haplotype = 1 <;> simp [h0, h1]

theorem frameOK_refl (w : Window) : frameOK w w := by
  induction w with
  | nil => exact List.Forall₂.nil
  | cons e rest ih => exact List.Forall₂.cons ⟨rfl, rfl⟩ ih

theorem frameOK_trans {a b c : Window} (h1 : frameOK a b) (h2 : frameOK b c) :
    frameOK a c := by
  induction h1 generalizing c with
  | nil =>
      cases h2
      exact List.Forall₂.nil
  | cons hxy htail ih =>
      cases h2 with
      | cons hyz htail2 =>
          exact List.Forall₂.cons ⟨hyz.1.trans hxy.1, hyz.2.trans hxy.2⟩ (ih htail2)

theorem frameOK_keys {a b : Window} (h : frameOK a b) : winKeys b = winKeys a := by
  induction h with
  | nil => rfl
  | cons hxy _ ih =>
      simp only [winKeys, List.map_cons] at ih ⊢
      rw [hxy.1, ih]

theorem frameOK_winSetDup (w : Window) (k : VarKey) : frameOK w (winSetDup w k) := by
  induction w with
  | nil => exact List.Forall₂.nil
  | cons e rest ih =>
      refine List.Forall₂.cons ?_ ih
      by_cases h : e.1 = k
      · simp [h, idFields]
      · simp [h]

theorem frameOK_winSetAllPS (w : Window) (ps : Int) : frameOK w (winSetAllPS w ps) := by
  induction w with
  | nil => exact List.Forall₂.nil
  | cons e rest ih =>
      refine List.Forall₂.cons ?_ ih
      simp [idFields]

theorem frameOK_flipAll (w : Window) :
    frameOK w (w.map (fun kv => (kv.1, flipVariant kv.2))) := by
  induction w with
  | nil => exact List.Forall₂.nil
  | cons e rest ih =>
      refine List.Forall₂.cons ⟨rfl, ?_⟩ ih
      show idFields (flipVariant e.2) = idFields e.2
      unfold flipVariant
      by_cases h0 : e.2.het = true ∧ e.2.haplotype = 0
      · simp [h0, idFields]
      · by_cases h1 : e.2.het = true ∧ e.2.haplotype = 1 <;> simp [h0, h1, idFields]

theorem frameOK_swapPass (prev cur : Window) : frameOK cur (swapPass prev cur) := by
  show frameOK cur
    (if (hapCounts prev cur).1 < (hapCounts prev cur).2 then
      cur.map (fun kv => (kv.1, flipVariant kv.2))
    else cur)
  split
  · exact frameOK_flipAll cur
  · exact frameOK_refl cur

theorem frameOK_dupStep (prev cur : Window) (k : VarKey) :
    frameOK cur (dupStep prev cur k) := by
  rcases hpv : winLookup prev k with _ | pv
  · simp only [dupStep, hpv]
    exact frameOK_refl cur
  · rcases hcv : winLookup cur k with _ | cv
    · simp only [dupStep, hpv, hcv]
      exact frameOK_refl cur
    · simp only [dupStep, hpv, hcv]
      split
      · refine frameOK_trans ?_ (frameOK_winSetDup _ k)
        split
        · refine frameOK_trans ?_ (frameOK_winSetAllPS _ _)
          refine frameOK_trans ?_ (frameOK_winSetDup _ k)
          split
          · exact frameOK_winSetDup cur k
          · exact frameOK_refl cur
        · split
          · exact frameOK_winSetDup cur k
          · exact frameOK_refl cur
      · split
        · refine frameOK_trans ?_ (frameOK_winSetAllPS _ _)
          refine frameOK_trans ?_ (frameOK_winSetDup _ k)
          split
          · exact frameOK_winSetDup cur k
          · exact frameOK_refl cur
        · split
          · exact frameOK_winSetDup cur k
          · exact frameOK_refl cur

theorem frameOK_dupFold (prev : Window) (ks : List VarKey) (cur : Window) :
    frameOK cur (ks.foldl (fun c k => dupStep prev c k) cur) := by
  induction ks generalizing cur with
  | nil => exact frameOK_refl cur
  | cons k rest ih =>
      exact frameOK_trans (frameOK_dupStep prev cur k) (ih (dupStep prev cur k))

/-- Claim C10: region-level reconciliation leaves the previous window
untouched and returns the current window's dict: the result corresponds
entry by entry (same order, same keys) to the input current window, with
only the `haplotype`, `genotype`, `phase_set` and `duplicate` fields of
current-window variants possibly changed (all fields in `idFields` are
preserved), and the key sequence is unchanged. -/
theorem reconcile_frame (s : Window × Window) :
    (reconcilePair s).1 = s.1 ∧
      frameOK s.2 (reconcilePair s).2 ∧
      winKeys (reconcilePair s).2 = winKeys s.2 := by
  have hsw : frameOK s.2 (swapPass s.1 s.2) := frameOK_swapPass s.1 s.2
  have hdp : frameOK (swapPass s.1 s.2) (reconcile_current_window s.1 s.2) :=
    frameOK_dupFold s.1 (overlapKeys s.1 (swapPass s.1 s.2)) (swapPass s.1 s.2)
  have h := frameOK_trans hsw hdp
  exact ⟨rfl, h, frameOK_keys h⟩

/-- Claim C9 counterexample: in the `call` region loop there is no
handler for errors other than `LowReadCountException`, so a region whose
collaborator raises aborts the whole run (the following, healthy region
is never processed and no aggregated output is produced), instead of
being logged and skipped. -/
theorem call_loop_abort_cx :
    callLoop [Except.error (RegionErr.other "inference failure"), Except.ok []] [] =
      Except.error (RegionErr.other "inference failure") := rfl

/-- Claim C9 (amended): only the labeled-BAM evaluation loop
(`eval_labeled_bam`) catches a non-low-read-count error: the failing
region is logged and skipped, contributes nothing to the results, and
the loop continues with the remaining regions. The `call` region loop
has no such handler, so there the error propagates and aborts the run
(see the counterexample); in particular its previous-window handle never
advances past a failed region because the whole loop stops. -/
theorem eval_loop_skips (xs ys : List (Except RegionErr Window)) (e : RegionErr) :
    evalLoop (xs ++ Except.error e :: ys) = evalLoop xs ++ evalLoop ys := by
  induction xs with
  | nil => simp [evalLoop]
  | cons x rest ih =>
      cases x <;> simp [evalLoop, ih]

theorem emitVars_sublist (l : List Variant) (seen : List VarKey) :
    (emitVars l seen).Sublist l := by
  induction l generalizing seen with
  | nil => exact List.Sublist.refl []
  | cons v rest ih =>
      rw [emitVars]
      by_cases hd : v.duplicate = true
      · rw [if_pos hd]
        exact (ih seen).cons v
      · rw [if_neg hd]
        by_cases hs : varKey v ∈ seen
        · rw [if_pos hs]
          exact (ih seen).cons v
        · rw [if_neg hs]
          exact (ih (varKey v :: seen)).cons₂ v

theorem emitVars_mem (l : List Variant) (seen : List VarKey) (v : Variant)
    (h : v ∈ emitVars l seen) : v ∈ l ∧ v.duplicate = false := by
  induction l generalizing seen with
  | nil => cases h
  | cons w rest ih =>
      rw [emitVars] at h
      by_cases hd : w.duplicate = true
      · rw [if_pos hd] at h
        obtain ⟨hmem, hdup⟩ := ih seen h
        exact ⟨List.mem_cons_of_mem w hmem, hdup⟩
      · rw [if_neg hd] at h
        by_cases hs : varKey w ∈ seen
        · rw [if_pos hs] at h
          obtain ⟨hmem, hdup⟩ := ih seen h
          exact ⟨List.mem_cons_of_mem w hmem, hdup⟩
        · rw [if_neg hs] at h
          rcases List.mem_cons.mp h with h | h
          · subst h
            exact ⟨List.mem_cons_self _ _, Bool.not_eq_true _ ▸ hd⟩
          · obtain ⟨hmem, hdup⟩ := ih (varKey w :: seen) h
            exact ⟨List.mem_cons_of_mem w hmem, hdup⟩

theorem emitVars_keys (l : List Variant) (seen : List VarKey) :
    ((emitVars l seen).map varKey).Nodup ∧
      ∀ k ∈ (emitVars l seen).map varKey, k ∉ seen := by
  induction l generalizing seen with
  | nil => simp [emitVars]
  | cons v rest ih =>
      rw [emitVars]
      by_cases hd : v.duplicate = true
      · rw [if_pos hd]
        exact ih seen
      · rw [if_neg hd]
        by_cases hs : varKey v ∈ seen
        · rw [if_pos hs]
          exact ih seen
        · rw [if_neg hs]
          obtain ⟨hnd, hns⟩ := ih (varKey v :: seen)
          constructor
          · rw [List.map_cons, List.nodup_cons]
            refine ⟨fun hmem => ?_, hnd⟩
            exact hns _ hmem (List.mem_cons_self _ _)
          · intro k hk
            rw [List.map_cons] at hk
            rcases List.mem_cons.mp hk with hk | hk
            · subst hk
              exact hs
            · intro hkseen
              exact hns k hk (List.mem_cons_of_mem _ hkseen)

/-- Claim C8: the output assembler flattens every window's reconciled
variant dict, sorts by (chromosome, position), intersects with the
original target intervals, and emits (per the spec-modelled duplicate
exclusion) a sequence that is non-decreasing in (chromosome, position),
contains no duplicate-flagged variant, keeps at most one representative
per variant identity, and only contains variants overlapping some
target interval. -/
theorem assemble_props (windows : List Window) (targets : List BedInterval) :
    List.Sorted varLe (assemble windows targets) ∧
      (∀ v ∈ assemble windows targets, v.duplicate = false) ∧
      (∀ v ∈ assemble windows targets, ∃ t ∈ targets, overlapsTarget v t = true) ∧
      ((assemble windows targets).map varKey).Nodup := by
  have hsorted : List.Sorted varLe
      (List.insertionSort varLe
        (windows.foldl (fun acc w => acc ++ w.map Prod.snd) [])) :=
    List.sorted_insertionSort varLe _
  have hfiltered : List.Sorted varLe
      ((List.insertionSort varLe
          (windows.foldl (fun acc w => acc ++ w.map Prod.snd) [])).filter
        (fun v => targets.any (fun t => overlapsTarget v t))) :=
    List.Pairwise.filter _ hsorted
  refine ⟨?_, ?_, ?_, ?_⟩
  · exact List.Pairwise.sublist (emitVars_sublist _ []) hfiltered
  · intro v hv
    exact (emitVars_mem _ _ v hv).2
  · intro v hv
    have hvf := (emitVars_mem _ _ v hv).1
    have := (List.mem_filter.mp hvf).2
    exact List.any_eq_true.mp this
  · exact (emitVars_keys _ []).1

/-- Claim C8 witness: at a concrete input: a single window holding one non-duplicate
variant inside the single target interval. -/
theorem assemble_props_witness :
    cxOutVar.duplicate = false ∧
      ∃ t ∈ [cxTarget], overlapsTarget cxOutVar t = true :=
  ⟨(assemble_props [[((5, "A", "G"), cxOutVar)]] [cxTarget]).2.1 cxOutVar (by decide),
    (assemble_props [[((5, "A", "G"), cxOutVar)]] [cxTarget]).2.2.1 cxOutVar (by decide)⟩

/-- Claim C6 witness: at a concrete input with one overlapping pair that
is heterozygous in both windows with the same haplotype, `same = 1`,
`opposite = 0`, and the swap pass changes nothing. -/
theorem region_swap_pass_witness : swapPass prevWin curWin = curWin := by
  have h := (region_swap_pass prevWin curWin).2.1
  rw [h]
  decide

/-- Claim C9 (amended) witness: a failing middle region is skipped and
both neighbours are still processed. -/
theorem eval_loop_skips_witness :
    evalLoop ([Except.ok prevWin] ++ Except.error (RegionErr.other "x") :: [Except.ok curWin]) =
      evalLoop [Except.ok prevWin] ++ evalLoop [Except.ok curWin] :=
  eval_loop_skips [Except.ok prevWin] [Except.ok curWin] (RegionErr.other "x")

/-- Claim C10 witness: at a concrete window pair the previous window is
returned unchanged. -/
theorem reconcile_frame_witness : (reconcilePair (prevWin, curWin)).1 = prevWin :=
  (reconcile_frame (prevWin, curWin)).1
